import Mathlib

/-!
Formal model of the SQD (sample-based quantum diagonalization) self-consistent
configuration-recovery pipeline and its orbital-optimization stage, embedded from
`docs/how_tos/use_oo_to_optimize_hamiltonian_basis.ipynb`.

The notebook orchestrates the loop: configuration recovery, Hamming-weight
postselection with batched subsampling, per-batch eigensolves, occupancy
aggregation, best-batch selection, and orbital optimization.  Library routines
called by the notebook (`recover_configurations`, `postselect_and_subsample`,
`solve_fermion`, `bitstring_matrix_to_ci_strs`, `rotate_integrals`,
`optimize_orbitals`) are not part of the repository snapshot, so they are
modelled from the specification text; the orchestration itself is translated
directly from the notebook.

Bitstrings are lists of booleans of length `2 * norb`; the first (take) half is
the spin-down sector and the second (drop) half is the spin-up sector, matching
the notebook's `hamming_right = num_elec_a` / `hamming_left = num_elec_b`
convention.  Probabilities are rationals; the seeded random generator is an
explicit state-threaded congruential generator.
-/

open Kronecker
open scoped Matrix

namespace SQD

/-- Deterministic pseudo-random state transition, modelling the seeded generator
that the notebook threads through recovery and subsampling stages. -/
def lcg (s : Nat) : Nat := (75 * s + 74) % 65537

/-- Draw a rational in `[0, 1)` together with the advanced generator state. -/
def randUnit (s : Nat) : ℚ × Nat :=
  let s' := lcg s
  ((s' : ℚ) / 65537, s')

/-- A measured occupation bitstring: one row of the bitstring matrix. -/
abbrev Row := List Bool

/-- Population count (Hamming weight) of a bitstring or of one of its halves. -/
def popcount (r : Row) : Nat := r.count true

/-- The spin-down half of a row: its first `norb` bits (the notebook's left half,
checked against `hamming_left = num_elec_b`). -/
def leftHalf (norb : Nat) (r : Row) : Row := r.take norb

/-- The spin-up half of a row: its bits from position `norb` on (the notebook's
right half, checked against `hamming_right = num_elec_a`). -/
def rightHalf (norb : Nat) (r : Row) : Row := r.drop norb

/-- Thread an explicit generator state through an elementwise transformation of a
list, returning the transformed list and the final state. -/
def statefulMap (f : α → Nat → β × Nat) : List α → Nat → List β × Nat
  | [], s => ([], s)
  | a :: as, s =>
    let bs := f a s
    let rest := statefulMap f as bs.2
    (bs.1 :: rest.1, rest.2)

/-- Modelled from the spec: one probabilistic bit resampling inside
`recover_configurations`.  A bit inconsistent with the target Hamming weight of
its sector (a set bit while the sector count exceeds the target, or a clear bit
while it falls short) is flipped with probability given by the distance of the
orbital's estimated occupancy from the sampled value; other bits are unchanged. -/
def recoverBit (occK : ℚ) (b : Bool) (cnt target : Nat) (s : Nat) : Bool × Nat :=
  let us := randUnit s
  if target < cnt && b then (decide (1 - occK ≤ us.1), us.2)
  else if cnt < target && !b then (decide (us.1 < occK), us.2)
  else (b, us.2)

/-- Modelled from the spec: resample the bits of one spin sector of a row,
pulling its population count toward the sector's target electron count. -/
def recoverHalf (occs : List ℚ) (target : Nat) (half : Row) (s : Nat) : Row × Nat :=
  statefulMap (fun bo st => recoverBit bo.2 bo.1 (popcount half) target st)
    (half.zip occs) s

/-- Modelled from the spec: resample one full row, sector by sector. -/
def recoverRow (norb : Nat) (occs : List ℚ) (nUp nDn : Nat) (r : Row) (s : Nat) :
    Row × Nat :=
  let lh := recoverHalf occs nDn (leftHalf norb r) s
  let rh := recoverHalf occs nUp (rightHalf norb r) lh.2
  (lh.1 ++ rh.1, rh.2)

/-- Modelled from the spec: `recover_configurations`.  Given the full bitstring
matrix, its probability vector, the current occupancy estimate and the target
electron counts, produce a corrected matrix of the same row count with the
aligned probability vector, threading the seeded random source. -/
def recoverConfigurations (norb : Nat) (mat : List Row) (probs : List ℚ)
    (occs : List ℚ) (nUp nDn : Nat) (s : Nat) : (List Row × List ℚ) × Nat :=
  let res := statefulMap (recoverRow norb occs nUp nDn) mat s
  ((res.1, probs), res.2)

/-- The Hamming postselection predicate: the spin-up half has population exactly
`nUp` and the spin-down half exactly `nDn`. -/
def hasTargetHamming (norb nUp nDn : Nat) (r : Row) : Bool :=
  popcount (rightHalf norb r) == nUp && popcount (leftHalf norb r) == nDn

/-- Draw one row, with replacement, from a nonempty postselected pool. -/
def drawRow (pool : List Row) (s : Nat) : Row × Nat :=
  let s' := lcg s
  (pool.getD (s' % pool.length) [], s')

/-- Draw one batch of `k` rows from the postselected pool. -/
def drawBatch (pool : List Row) : Nat → Nat → List Row × Nat
  | 0, s => ([], s)
  | k + 1, s =>
    let rs := drawRow pool s
    let rest := drawBatch pool k rs.2
    (rs.1 :: rest.1, rest.2)

/-- Draw `nb` independent batches of `spb` rows each from the pool. -/
def drawBatches (pool : List Row) (spb : Nat) : Nat → Nat → List (List Row) × Nat
  | 0, s => ([], s)
  | nb + 1, s =>
    let b := drawBatch pool spb s
    let rest := drawBatches pool spb nb b.2
    (b.1 :: rest.1, rest.2)

/-- The error raised when postselection leaves no usable sample. -/
def emptyPoolMsg : String := "no samples matching the target particle numbers"

/-- Modelled from the spec: `postselect_and_subsample`.  Keep exactly the rows
whose spin-up half has population `nUp` and spin-down half `nDn`; if none
survive, fail with an explicit unrecoverable-sample-set error, otherwise draw
`nb` batches of `spb` rows each (with replacement, uniformly) using the seeded
random source.  The probability vector enters only through row alignment. -/
def postselectAndSubsample (norb nUp nDn spb nb : Nat) (mat : List Row)
    (_probs : List ℚ) (s : Nat) : Except String (List (List Row) × Nat) :=
  let pool := mat.filter (fun r => hasTargetHamming norb nUp nDn r)
  if pool.isEmpty then Except.error emptyPoolMsg
  else Except.ok (drawBatches pool spb nb s)

/-- The data returned by one converged restricted eigensolve (`solve_fermion`):
the subspace ground-state energy, the per-orbital occupancies and the total-spin
expectation.  Eigenvector coefficients play no role downstream in the loop and
are omitted. -/
structure SolveResult where
  energy : ℚ
  occs : List ℚ
  spin : ℚ
deriving Repr, DecidableEq

/-- The notebook's inner loop over batches: each batch is eigensolved in turn.
A non-convergent solve surfaces as an `Except.error`, and — exactly as in the
notebook, which wraps `solve_fermion` in no error handling — the first failing
batch aborts the whole round. -/
def solveBatches (solve : List Row → Except String SolveResult) :
    List (List Row) → Except String (List SolveResult)
  | [] => Except.ok []
  | b :: bs =>
    match solve b with
    | Except.error m => Except.error m
    | Except.ok r =>
      match solveBatches solve bs with
      | Except.error m => Except.error m
      | Except.ok rs => Except.ok (r :: rs)

/-- Componentwise arithmetic mean of the per-batch occupancy vectors, the
notebook's `np.mean(int_occs, axis=0)` over all batch results of a round. -/
def meanOccs (norb : Nat) (occs : List (List ℚ)) : List ℚ :=
  (List.range norb).map fun k => (occs.map (fun o => o.getD k 0)).sum / (occs.length : ℚ)

/-- Configuration parameters of the self-consistent recovery loop. -/
structure SCParams where
  norb : Nat
  nUp : Nat
  nDn : Nat
  spb : Nat
  nb : Nat
deriving Repr, DecidableEq

/-- Loop-carried state of the notebook's configuration-recovery loop: the
occupancy estimate (`None` on round 0), the random-source state, and the
append-only energy and batch histories. -/
structure LoopState where
  occ : Option (List ℚ)
  rng : Nat
  eHist : List (List ℚ)
  batchHist : List (List (List Row))
deriving Repr, DecidableEq

/-- The recovery stage at the top of each round, translated from the notebook:
on round 0 (`occ = none`) the raw matrix and probability vector pass through
unchanged; on later rounds `recover_configurations` is applied to the original
raw matrix with the current occupancy estimate. -/
def recoveryStage (prm : SCParams) (raw : List Row) (probs : List ℚ)
    (occ : Option (List ℚ)) (s : Nat) : (List Row × List ℚ) × Nat :=
  match occ with
  | none => ((raw, probs), s)
  | some o => recoverConfigurations prm.norb raw probs o prm.nUp prm.nDn s

/-- The body of one configuration-recovery round as a function of the round's
carried data only: recovery, postselection and subsampling, per-batch solves,
and occupancy aggregation.  Returns the round's batches, its solver results,
the new occupancy estimate and the advanced random state. -/
def scRound (prm : SCParams) (solve : List Row → Except String SolveResult)
    (raw : List Row) (probs : List ℚ) (occ : Option (List ℚ)) (s : Nat) :
    Except String (List (List Row) × List SolveResult × List ℚ × Nat) := do
  let rec1 := recoveryStage prm raw probs occ s
  let post ← postselectAndSubsample prm.norb prm.nUp prm.nDn prm.spb prm.nb
    rec1.1.1 rec1.1.2 rec1.2
  let results ← solveBatches solve post.1
  Except.ok (post.1, results, meanOccs prm.norb (results.map (fun r => r.occs)), post.2)

/-- One iteration of the notebook's outer loop: run the round on the carried
occupancy and random state, then record the round's energies and batches. -/
def scStep (prm : SCParams) (solve : List Row → Except String SolveResult)
    (raw : List Row) (probs : List ℚ) (st : LoopState) : Except String LoopState :=
  (scRound prm solve raw probs st.occ st.rng).map fun rd =>
    { occ := some rd.2.2.1
      rng := rd.2.2.2
      eHist := st.eHist ++ [rd.2.1.map (fun r => r.energy)]
      batchHist := st.batchHist ++ [rd.1] }

/-- Initial loop state: no occupancy estimate, the externally supplied seed,
empty histories. -/
def scInit (seed : Nat) : LoopState :=
  { occ := none, rng := seed, eHist := [], batchHist := [] }

/-- The notebook's outer self-consistent configuration-recovery loop, iterated
for the configured number of rounds. -/
def scRun (prm : SCParams) (solve : List Row → Except String SolveResult)
    (raw : List Row) (probs : List ℚ) : Nat → LoopState → Except String LoopState
  | 0, st => Except.ok st
  | n + 1, st => do scRun prm solve raw probs n (← scStep prm solve raw probs st)

/-- First index of the minimum of a list of rationals, the semantics of the
notebook's `np.argmin(e_hist[-1])`. -/
def argminIdx : List ℚ → Nat
  | [] => 0
  | [_] => 0
  | a :: b :: rest =>
    let j := argminIdx (b :: rest)
    if (b :: rest).getD j 0 < a then j + 1 else 0

/-- The notebook's `best_batch = batches[np.argmin(e_hist[-1])]`. -/
def bestBatch (batches : List (List Row)) (es : List ℚ) : List Row :=
  batches.getD (argminIdx es) []

/-- The batch handed to orbital optimization after the loop terminates: the
final round's batch whose recorded energy is lowest. -/
def selectedForOO (st : LoopState) : List Row :=
  bestBatch (st.batchHist.getLastD []) (st.eHist.getLastD [])

/-- Integer value of a bit-pattern half (least-significant bit first). -/
def halfNat : Row → Nat
  | [] => 0
  | b :: bs => (if b then 1 else 0) + 2 * halfNat bs

/-- Modelled from the spec: one side of `bitstring_matrix_to_ci_strs` — the
distinct bit-patterns occurring among the given halves, sorted by integer
value (the stable deterministic order). -/
def ciStrsHalf (halves : List Row) : List Nat :=
  ((halves.map halfNat).toFinset).sort (· ≤ ·)

/-- Modelled from the spec: `bitstring_matrix_to_ci_strs`.  Split each row of a
batch in half, and collect the distinct spin-up and spin-down determinant
index-strings, each set sorted by integer value. -/
def ciStrs (norb : Nat) (batch : List Row) : List Nat × List Nat :=
  (ciStrsHalf (batch.map (rightHalf norb)), ciStrsHalf (batch.map (leftHalf norb)))

/-- Subspace dimension reported by the notebook:
`len(ci_strs_up) * len(ci_strs_dn)`. -/
def subspaceDim (norb : Nat) (batch : List Row) : Nat :=
  (ciStrs norb batch).1.length * (ciStrs norb batch).2.length

/-- Anti-symmetry of a square rational matrix: the rotation-generator invariant. -/
def IsAntisym {n : Nat} (M : Matrix (Fin n) (Fin n) ℚ) : Prop :=
  Matrix.transpose M = -M

/-- The skew-symmetric part of a matrix, used to re-enforce the anti-symmetry
invariant of the rotation generator after every update. -/
def skewPart {n : Nat} (M : Matrix (Fin n) (Fin n) ℚ) : Matrix (Fin n) (Fin n) ℚ :=
  (1 / 2 : ℚ) • (M - Matrix.transpose M)

/-- Modelled from the spec: the rotation generator is created once from free
parameters, reconstructing the full anti-symmetric matrix. -/
def kappaInit (n : Nat) (params : Fin n → Fin n → ℚ) : Matrix (Fin n) (Fin n) ℚ :=
  skewPart (Matrix.of params)

/-- Modelled from the spec: one momentum-accelerated gradient-descent update of
the rotation generator inside `optimize_orbitals`, re-enforcing anti-symmetry
after the update.  The analytic energy gradient is an opaque function of the
current generator (it depends on the reduced density matrices of the current
eigenstate, external to this model). -/
def ooUpdate {n : Nat} (grad : Matrix (Fin n) (Fin n) ℚ → Matrix (Fin n) (Fin n) ℚ)
    (lr mom : ℚ) (st : Matrix (Fin n) (Fin n) ℚ × Matrix (Fin n) (Fin n) ℚ) :
    Matrix (Fin n) (Fin n) ℚ × Matrix (Fin n) (Fin n) ℚ :=
  let v := mom • st.2 + grad st.1
  (skewPart (st.1 - lr • v), v)

/-- The rotation generator after `k` of the `num_iters * num_steps_grad`
gradient updates (momentum initialized to zero). -/
def kappaAfter (n : Nat) (grad : Matrix (Fin n) (Fin n) ℚ → Matrix (Fin n) (Fin n) ℚ)
    (lr mom : ℚ) (params : Fin n → Fin n → ℚ) (k : Nat) : Matrix (Fin n) (Fin n) ℚ :=
  ((ooUpdate grad lr mom)^[k] (kappaInit n params, 0)).1

/-- A two-body integral tensor over `num_orbitals` orbitals. -/
abbrev T4 (n : Nat) := Fin n → Fin n → Fin n → Fin n → ℝ

/-- Modelled from the spec: the orbital-rotation matrix of `rotate_integrals`,
the matrix exponential of the rotation generator, applied identically to both
spin sectors.  Exact real arithmetic stands in for the floating-point
`scipy` matrix exponential. -/
noncomputable def uRot (n : Nat) (K : Matrix (Fin n) (Fin n) ℝ) :
    Matrix (Fin n) (Fin n) ℝ :=
  NormedSpace.exp ℝ K

/-- Modelled from the spec: rotation of the one-body integral tensor by an
orbital-rotation matrix, contracting both indices. -/
noncomputable def rotateOneBody (n : Nat) (K h : Matrix (Fin n) (Fin n) ℝ) :
    Matrix (Fin n) (Fin n) ℝ :=
  (uRot n K)ᵀ * h * uRot n K

/-- Contraction of all four indices of a two-body tensor with a rotation
matrix. -/
noncomputable def rot4 {n : Nat} (W : Matrix (Fin n) (Fin n) ℝ) (t : T4 n) : T4 n :=
  fun p q r s => ∑ a, ∑ b, ∑ c, ∑ d, W a p * W b q * W c r * W d s * t a b c d

/-- Modelled from the spec: rotation of the two-body integral tensor by an
orbital-rotation matrix. -/
noncomputable def rotateTwoBody (n : Nat) (K : Matrix (Fin n) (Fin n) ℝ) (t : T4 n) :
    T4 n :=
  rot4 (uRot n K) t

/-- Modelled from the spec: `rotate_integrals`, rotating the one- and two-body
tensors by `U(kappa)`. -/
noncomputable def rotateIntegrals (n : Nat) (K hcore : Matrix (Fin n) (Fin n) ℝ)
    (eri : T4 n) : Matrix (Fin n) (Fin n) ℝ × T4 n :=
  (rotateOneBody n K hcore, rotateTwoBody n K eri)

/-- Reshape of a two-body tensor into a matrix over the paired index, used to
reason about four-index contractions as matrix conjugation. -/
def toPair {n : Nat} (t : T4 n) : Matrix (Fin n × Fin n) (Fin n × Fin n) ℝ :=
  fun ab cd => t ab.1 ab.2 cd.1 cd.2

/-- The observable data of the round performed by one `scStep`: the carried
occupancy estimate and random state it produces, together with the round's
recorded energies and batches (the last entries of the histories). -/
def roundView (st : LoopState) :
    Option (List ℚ) × Nat × Option (List ℚ) × Option (List (List Row)) :=
  (st.occ, st.rng, st.eHist.getLast?, st.batchHist.getLast?)

/-! ### Concrete instances used to exercise the theorems -/

/-- A two-row raw bitstring matrix over one orbital per spin sector. -/
def rawEx : List Row := [[true, true], [false, true]]

/-- Relative weights accompanying `rawEx`. -/
def probsEx : List ℚ := [1, 1]

/-- Loop parameters for the concrete instances. -/
def prmEx : SCParams := { norb := 1, nUp := 1, nDn := 1, spb := 1, nb := 1 }

/-- A solver stub that converges on every batch. -/
def solveEx : List Row → Except String SolveResult :=
  fun _ => Except.ok ⟨-1, [1], 0⟩

/-- A concrete batch on which `cexSolve` converges. -/
def cexGoodBatch : List Row := [[true, true]]

/-- A concrete batch on which `cexSolve` does not converge. -/
def cexBadBatch : List Row := [[false, true]]

/-- A round with one converged and one non-converged batch. -/
def cexBatches : List (List Row) := [cexGoodBatch, cexBadBatch]

/-- The explicit non-convergence failure of the restricted eigensolve. -/
def davidsonMsg : String := "Davidson iterations exceeded max_cycle without convergence"

/-- A solver stub converging on `cexGoodBatch` only. -/
def cexSolve : List Row → Except String SolveResult :=
  fun b => if b = cexGoodBatch then Except.ok ⟨-1, [1], 0⟩ else Except.error davidsonMsg

/-- A loop state after a final round with three recorded batch energies. -/
def stEx : LoopState :=
  { occ := some [1], rng := 0, eHist := [[3, 1, 2]],
    batchHist := [[[[true, true]], [[false, true]], [[true, false]]]] }

/-- A loop state with a nonempty history, agreeing with `st2Ex` on the carried
occupancy estimate and random state. -/
def st1Ex : LoopState :=
  { occ := none, rng := 3, eHist := [[5]], batchHist := [[[[true, true]]]] }

/-- A loop state with empty histories, agreeing with `st1Ex` on the carried
occupancy estimate and random state. -/
def st2Ex : LoopState := { occ := none, rng := 3, eHist := [], batchHist := [] }

/-! ### Helper lemmas -/

theorem skewPart_antisym {n : Nat} (M : Matrix (Fin n) (Fin n) ℚ) :
    IsAntisym (skewPart M) := by
  unfold IsAntisym skewPart
  rw [Matrix.transpose_smul, Matrix.transpose_sub, Matrix.transpose_transpose,
    ← smul_neg, neg_sub]

theorem pair_expand {n : Nat} {M : Type} [AddCommMonoid M]
    (g : Fin n × Fin n → Fin n × Fin n → M) :
    ∑ x, ∑ y, g x y = ∑ c, ∑ d, ∑ a, ∑ b, g (c, d) (a, b) := by
  rw [Fintype.sum_prod_type]
  exact Finset.sum_congr rfl fun c _ => Finset.sum_congr rfl fun d _ =>
    Fintype.sum_prod_type _

theorem sum_swap4 {n : Nat} {M : Type} [AddCommMonoid M]
    (f : Fin n → Fin n → Fin n → Fin n → M) :
    ∑ c, ∑ d, ∑ a, ∑ b, f a b c d = ∑ a, ∑ b, ∑ c, ∑ d, f a b c d := by
  have h1 := pair_expand (fun x y => f y.1 y.2 x.1 x.2)
  have h2 := pair_expand (fun x y => f x.1 x.2 y.1 y.2)
  rw [← h1, Finset.sum_comm, h2]

theorem toPair_inj {n : Nat} {t u : T4 n} (h : toPair t = toPair u) : t = u := by
  funext a b c d
  exact congrFun (congrFun h (a, b)) (c, d)

theorem rot4_toPair {n : Nat} (W : Matrix (Fin n) (Fin n) ℝ) (t : T4 n) :
    toPair (rot4 W t) = (W ⊗ₖ W)ᵀ * toPair t * (W ⊗ₖ W) := by
  funext pq rs
  obtain ⟨p, q⟩ := pq
  obtain ⟨r, s⟩ := rs
  simp only [toPair, rot4, Matrix.mul_apply, Matrix.transpose_apply,
    Matrix.kroneckerMap_apply, Fintype.sum_prod_type, Finset.sum_mul, Finset.mul_sum]
  rw [sum_swap4 (fun a b c d => W a p * W b q * t a b c d * (W c r * W d s))]
  exact Finset.sum_congr rfl fun a _ => Finset.sum_congr rfl fun b _ =>
    Finset.sum_congr rfl fun c _ => Finset.sum_congr rfl fun d _ => by ring

theorem uRot_mul_uRot_neg (n : Nat) (K : Matrix (Fin n) (Fin n) ℝ) :
    uRot n K * uRot n (-K) = 1 := by
  have h := Matrix.exp_add_of_commute (𝕂 := ℝ) K (-K) ((Commute.refl K).neg_right)
  rw [add_neg_cancel] at h
  rw [uRot, uRot, ← h, NormedSpace.exp_zero]

theorem rot4_comp {n : Nat} (U V : Matrix (Fin n) (Fin n) ℝ) (t : T4 n) :
    rot4 V (rot4 U t) = rot4 (U * V) t := by
  apply toPair_inj
  rw [rot4_toPair, rot4_toPair, rot4_toPair, Matrix.mul_kronecker_mul,
    Matrix.transpose_mul]
  simp only [Matrix.mul_assoc]

theorem rot4_one {n : Nat} (t : T4 n) : rot4 (1 : Matrix (Fin n) (Fin n) ℝ) t = t := by
  apply toPair_inj
  rw [rot4_toPair, Matrix.one_kronecker_one, Matrix.transpose_one, Matrix.one_mul,
    Matrix.mul_one]

theorem rotateOneBody_roundtrip {n : Nat} (K h : Matrix (Fin n) (Fin n) ℝ) :
    rotateOneBody n (-K) (rotateOneBody n K h) = h := by
  unfold rotateOneBody
  calc (uRot n (-K))ᵀ * ((uRot n K)ᵀ * h * uRot n K) * uRot n (-K)
      = (uRot n K * uRot n (-K))ᵀ * h * (uRot n K * uRot n (-K)) := by
        simp only [Matrix.transpose_mul, Matrix.mul_assoc]
    _ = h := by
        rw [uRot_mul_uRot_neg, Matrix.transpose_one, Matrix.one_mul, Matrix.mul_one]

theorem drawRow_mem (pool : List Row) (hp : pool ≠ []) (s : Nat) :
    (drawRow pool s).1 ∈ pool := by
  unfold drawRow
  dsimp only
  have hlt : lcg s % pool.length < pool.length :=
    Nat.mod_lt _ (List.length_pos.mpr hp)
  rw [List.getD_eq_getElem pool [] hlt]
  exact List.getElem_mem hlt

theorem drawBatch_mem (pool : List Row) (hp : pool ≠ []) :
    ∀ (k s : Nat), ∀ r ∈ (drawBatch pool k s).1, r ∈ pool := by
  intro k
  induction k with
  | zero => intro s r hr; simp [drawBatch] at hr
  | succ m ih =>
    intro s r hr
    simp only [drawBatch, List.mem_cons] at hr
    rcases hr with hr | hr
    · exact hr ▸ drawRow_mem pool hp s
    · exact ih _ r hr

theorem drawBatches_mem (pool : List Row) (hp : pool ≠ []) :
    ∀ (nb s : Nat), ∀ b ∈ (drawBatches pool spb nb s).1, ∀ r ∈ b, r ∈ pool := by
  intro nb
  induction nb with
  | zero => intro s b hb; simp [drawBatches] at hb
  | succ m ih =>
    intro s b hb r hr
    simp only [drawBatches, List.mem_cons] at hb
    rcases hb with hb | hb
    · exact drawBatch_mem pool hp _ _ r (hb ▸ hr)
    · exact ih _ b hb r hr

theorem solveBatches_ok_spec (solve : List Row → Except String SolveResult) :
    ∀ (batches : List (List Row)) (rs : List SolveResult),
      solveBatches solve batches = Except.ok rs →
      rs.length = batches.length ∧
      ∀ (i : Nat) (hb : i < batches.length) (hr : i < rs.length),
        solve (batches.get ⟨i, hb⟩) = Except.ok (rs.get ⟨i, hr⟩) := by
  intro batches
  induction batches with
  | nil =>
    intro rs h
    simp only [solveBatches] at h
    cases h
    exact ⟨rfl, fun i hb hr => absurd hb (Nat.not_lt_zero i)⟩
  | cons b bs ih =>
    intro rs h
    simp only [solveBatches] at h
    cases hsol : solve b with
    | error m => rw [hsol] at h; cases h
    | ok r =>
      rw [hsol] at h
      cases hrest : solveBatches solve bs with
      | error m => rw [hrest] at h; cases h
      | ok rs2 =>
        rw [hrest] at h
        cases h
        obtain ⟨hlen, hget⟩ := ih rs2 hrest
        refine ⟨by simpa using hlen, ?_⟩
        intro i hb hr
        cases i with
        | zero => simpa using hsol
        | succ j =>
          simpa using hget j (Nat.lt_of_succ_lt_succ hb) (Nat.lt_of_succ_lt_succ hr)

theorem solveBatches_error_of_mem (solve : List Row → Except String SolveResult) :
    ∀ (batches : List (List Row)) (b : List Row), b ∈ batches →
      ∀ m, solve b = Except.error m →
      ∃ m2, solveBatches solve batches = Except.error m2 := by
  intro batches
  induction batches with
  | nil => intro b hb; simp at hb
  | cons b0 bs ih =>
    intro b hb m hm
    rcases List.mem_cons.mp hb with hb | hb
    · refine ⟨m, ?_⟩
      simp only [solveBatches, hb ▸ hm]
    · cases hsol : solve b0 with
      | error m0 => exact ⟨m0, by simp only [solveBatches, hsol]⟩
      | ok r =>
        obtain ⟨m2, hm2⟩ := ih b hb m hm
        exact ⟨m2, by simp only [solveBatches, hsol, hm2]⟩

theorem argminIdx_lt : (l : List ℚ) → l ≠ [] → argminIdx l < l.length
  | [_], _ => Nat.zero_lt_one
  | a :: b :: rest, _ => by
    have ih := argminIdx_lt (b :: rest) (by simp)
    simp only [argminIdx]
    split
    · exact Nat.succ_lt_succ ih
    · simp

theorem argminIdx_min : (l : List ℚ) → ∀ (j : Nat), j < l.length →
    l.getD (argminIdx l) 0 ≤ l.getD j 0
  | [_], 0, _ => le_refl _
  | [_], j + 1, hj => by simp at hj
  | a :: b :: rest, j, hj => by
    have ih := argminIdx_min (b :: rest)
    simp only [argminIdx]
    split
    · rename_i hlt
      rw [List.getD_cons_succ]
      cases j with
      | zero => exact le_of_lt (by simpa using hlt)
      | succ j2 =>
        rw [List.getD_cons_succ]
        exact ih j2 (Nat.lt_of_succ_lt_succ hj)
    · rename_i hge
      rw [List.getD_cons_zero]
      cases j with
      | zero => exact le_refl _
      | succ j2 =>
        rw [List.getD_cons_succ]
        exact le_trans (not_lt.mp hge) (ih j2 (Nat.lt_of_succ_lt_succ hj))

/-! ### Claim theorems -/

/-- C3: on round 0, when no occupancy estimate exists yet (the initial loop
state carries `none`), the recovery stage passes the full raw bitstring matrix
and its probability vector through to postselection unchanged: no bit is
modified and no row is added, removed or reordered. -/
theorem round0_passthrough (prm : SCParams) (raw : List Row) (probs : List ℚ)
    (s seed : Nat) :
    (scInit seed).occ = none ∧
    recoveryStage prm raw probs none s = ((raw, probs), s) :=
  ⟨rfl, rfl⟩

/-- C5: the rotation generator used by orbital optimization satisfies
`kappa = -kappa-transpose` at initialization (`k = 0`) and after every one of
the `num_iters * num_steps_grad` momentum gradient updates, whatever gradient
function, learning rate and momentum coefficient drive the updates. -/
theorem kappa_antisym_invariant (n : Nat)
    (grad : Matrix (Fin n) (Fin n) ℚ → Matrix (Fin n) (Fin n) ℚ) (lr mom : ℚ)
    (params : Fin n → Fin n → ℚ) (k : Nat) :
    IsAntisym (kappaAfter n grad lr mom params k) := by
  cases k with
  | zero => exact skewPart_antisym _
  | succ m =>
    rw [kappaAfter, Function.iterate_succ_apply']
    exact skewPart_antisym _

/-- C6: rotating the one-body and two-body integral tensors by `U(kappa)` and
then rotating the result by `U(-kappa)` returns the original tensors: the
integral rotation is invertible by negating the generator. -/
theorem rotate_integrals_roundtrip (n : Nat) (K hcore : Matrix (Fin n) (Fin n) ℝ)
    (eri : T4 n) :
    rotateIntegrals n (-K) (rotateIntegrals n K hcore eri).1
      (rotateIntegrals n K hcore eri).2 = (hcore, eri) := by
  unfold rotateIntegrals
  refine Prod.ext (rotateOneBody_roundtrip K hcore) ?_
  show rotateTwoBody n (-K) (rotateTwoBody n K eri) = eri
  unfold rotateTwoBody
  rw [rot4_comp, uRot_mul_uRot_neg, rot4_one]

/-- C8: Hamming postselection leaves zero rows exactly when
`postselect_and_subsample` fails with the explicit unrecoverable-sample-set
error; with a nonempty postselected pool it never produces that error, so the
run never silently proceeds from an unusable sample set. -/
theorem postselect_empty_error (norb nUp nDn spb nb : Nat) (mat : List Row)
    (probs : List ℚ) (s : Nat) :
    postselectAndSubsample norb nUp nDn spb nb mat probs s
        = Except.error emptyPoolMsg
      ↔ mat.filter (fun r => hasTargetHamming norb nUp nDn r) = [] := by
  unfold postselectAndSubsample
  by_cases h : (mat.filter (fun r => hasTargetHamming norb nUp nDn r)).isEmpty
  · simp only [h, if_true]
    simpa using List.isEmpty_iff.mp h
  · simp only [h, if_false]
    constructor
    · intro hc
      exact absurd hc (by simp)
    · intro hc
      exact absurd (List.isEmpty_iff.mpr hc) h

/-- C9: the determinant-subspace builder returns the distinct spin-up half
bit-patterns and the distinct spin-down half bit-patterns of a batch, each in
a duplicate-free list sorted by integer value (a stable deterministic order),
and the subspace dimension is the product of the two set sizes. -/
theorem ci_strs_sets (norb : Nat) (batch : List Row) :
    (ciStrs norb batch).1.Nodup ∧ (ciStrs norb batch).2.Nodup ∧
    (ciStrs norb batch).1.Sorted (· ≤ ·) ∧ (ciStrs norb batch).2.Sorted (· ≤ ·) ∧
    (∀ x, x ∈ (ciStrs norb batch).1 ↔ ∃ r ∈ batch, halfNat (rightHalf norb r) = x) ∧
    (∀ x, x ∈ (ciStrs norb batch).2 ↔ ∃ r ∈ batch, halfNat (leftHalf norb r) = x) ∧
    subspaceDim norb batch
      = (ciStrs norb batch).1.length * (ciStrs norb batch).2.length := by
  unfold subspaceDim ciStrs ciStrsHalf
  dsimp only
  refine ⟨Finset.sort_nodup _ _, Finset.sort_nodup _ _,
    Finset.sort_sorted _ _, Finset.sort_sorted _ _, ?_, ?_, rfl⟩
  · intro x
    simp [Finset.mem_sort, List.mem_toFinset, List.mem_map]
  · intro x
    simp [Finset.mem_sort, List.mem_toFinset, List.mem_map]

/-- C2: every bitstring row of every batch produced by
postselection-and-subsampling has a spin-up half whose population count equals
the target spin-up electron count exactly and a spin-down half whose population
count equals the target spin-down electron count exactly. -/
theorem postselect_hamming_exact (norb nUp nDn spb nb : Nat) (mat : List Row)
    (probs : List ℚ) (s s2 : Nat) (batches : List (List Row))
    (h : postselectAndSubsample norb nUp nDn spb nb mat probs s
        = Except.ok (batches, s2)) :
    ∀ b ∈ batches, ∀ r ∈ b,
      popcount (rightHalf norb r) = nUp ∧ popcount (leftHalf norb r) = nDn := by
  unfold postselectAndSubsample at h
  by_cases hpool : (mat.filter (fun r => hasTargetHamming norb nUp nDn r)).isEmpty
  · rw [if_pos hpool] at h
    cases h
  · rw [if_neg hpool] at h
    have hne : mat.filter (fun r => hasTargetHamming norb nUp nDn r) ≠ [] := by
      intro hc
      exact hpool (List.isEmpty_iff.mpr hc)
    injection h with h2
    intro b hb r hr
    have hb1 : b ∈ (drawBatches (mat.filter (fun r => hasTargetHamming norb nUp nDn r))
        spb nb s).1 := by
      rw [h2]
      exact hb
    have hrp := drawBatches_mem _ hne nb s b hb1 r hr
    have hpred := (List.mem_filter.mp hrp).2
    simpa [hasTargetHamming] using hpred

/-- C2 witness: the theorem applied to a concrete postselection run. -/
theorem postselect_hamming_exact_witness :
    (postselectAndSubsample 1 1 1 2 1 rawEx probsEx 5
        = Except.ok ([[[true, true], [true, true]]], 33749)) ∧
    ∀ b ∈ [[[true, true], [true, true]]], ∀ r ∈ b,
      popcount (rightHalf 1 r) = 1 ∧ popcount (leftHalf 1 r) = 1 :=
  ⟨rfl,
   postselect_hamming_exact 1 1 1 2 1 rawEx probsEx 5 33749
     [[[true, true], [true, true]]] rfl⟩

/-- C1 counterexample: a round whose batches are `cexBatches`, where the first
batch's eigensolve converges and the second does not, does not proceed with the
converged batch: the round's solver loop fails outright, so no occupancy
aggregation over the converged batches happens. -/
theorem nonconvergence_aborts_round :
    cexGoodBatch ∈ cexBatches ∧
    cexSolve cexGoodBatch = Except.ok ⟨-1, [1], 0⟩ ∧
    solveBatches cexSolve cexBatches = Except.error davidsonMsg ∧
    ¬ ∃ rs, solveBatches cexSolve cexBatches = Except.ok rs := by
  have herr : solveBatches cexSolve cexBatches = Except.error davidsonMsg := rfl
  refine ⟨List.mem_cons_self _ _, rfl, herr, ?_⟩
  rintro ⟨rs, hrs⟩
  rw [herr] at hrs
  cases hrs

/-- C1 amended: the orchestrator performs no per-batch failure handling: a
round's solver loop succeeds only when every batch converges, in which case
every batch's result is included positionally in the round's aggregation (none
is excluded, so the occupancy estimate averages over all batches), and any
single non-convergent batch makes the whole round — and hence the run — fail,
even when other batches of the round converged. -/
theorem round_requires_all_batches (solve : List Row → Except String SolveResult)
    (batches : List (List Row)) :
    (∀ rs, solveBatches solve batches = Except.ok rs →
      rs.length = batches.length ∧
      ∀ (i : Nat) (hb : i < batches.length) (hr : i < rs.length),
        solve (batches.get ⟨i, hb⟩) = Except.ok (rs.get ⟨i, hr⟩)) ∧
    (∀ b ∈ batches, ∀ m, solve b = Except.error m →
      ∃ m2, solveBatches solve batches = Except.error m2) :=
  ⟨fun rs h => solveBatches_ok_spec solve batches rs h,
   fun b hb m hm => solveBatches_error_of_mem solve batches b hb m hm⟩

/-- C1 witness: the amended theorem applied to concrete rounds — an all-
converged round keeps one result per batch, and the mixed round fails. -/
theorem round_requires_all_batches_witness :
    (solveBatches cexSolve [cexGoodBatch] = Except.ok [⟨-1, [1], 0⟩]) ∧
    ([(⟨-1, [1], 0⟩ : SolveResult)].length = [cexGoodBatch].length) ∧
    cexBadBatch ∈ cexBatches ∧
    cexSolve cexBadBatch = Except.error davidsonMsg ∧
    (∃ m2, solveBatches cexSolve cexBatches = Except.error m2) := by
  refine ⟨rfl, ?_, by decide, rfl, ?_⟩
  · exact ((round_requires_all_batches cexSolve [cexGoodBatch]).1
      [⟨-1, [1], 0⟩] rfl).1
  · exact (round_requires_all_batches cexSolve cexBatches).2 cexBadBatch
      (by decide) davidsonMsg rfl

/-- C4: the batch handed to orbital optimization is the final round's batch at
the argmin of that round's recorded energies: the selected batch is indexed by
`argminIdx` of the final energy row, that index is in range, and its energy is
minimal among the final round's per-batch energies. -/
theorem best_batch_selection (st : LoopState) (j : Nat)
    (hj : j < (st.eHist.getLastD []).length) :
    selectedForOO st
        = (st.batchHist.getLastD []).getD (argminIdx (st.eHist.getLastD [])) [] ∧
    argminIdx (st.eHist.getLastD []) < (st.eHist.getLastD []).length ∧
    (st.eHist.getLastD []).getD (argminIdx (st.eHist.getLastD [])) 0
      ≤ (st.eHist.getLastD []).getD j 0 :=
  ⟨rfl,
   argminIdx_lt _ (List.ne_nil_of_length_pos (Nat.lt_of_le_of_lt (Nat.zero_le j) hj)),
   argminIdx_min _ j hj⟩

/-- C4 witness: the theorem applied to a concrete final loop state whose
energies are `[3, 1, 2]`; the middle batch is selected. -/
theorem best_batch_selection_witness :
    (0 < (stEx.eHist.getLastD []).length) ∧
    (selectedForOO stEx
        = (stEx.batchHist.getLastD []).getD (argminIdx (stEx.eHist.getLastD [])) [] ∧
    argminIdx (stEx.eHist.getLastD []) < (stEx.eHist.getLastD []).length ∧
    (stEx.eHist.getLastD []).getD (argminIdx (stEx.eHist.getLastD [])) 0
      ≤ (stEx.eHist.getLastD []).getD 0 0) :=
  ⟨by decide, best_batch_selection stEx 0 (by decide)⟩

/-- C7: two runs with the same random seed and identical raw samples and
configuration parameters produce identical results after every recovery,
postselection and batching stage: the loop results agree in full, and in
particular the recorded batches of every configuration-recovery round agree. -/
theorem run_deterministic (prm : SCParams)
    (solve : List Row → Except String SolveResult) (raw1 raw2 : List Row)
    (probs1 probs2 : List ℚ) (seed1 seed2 iters : Nat)
    (h1 : seed1 = seed2) (h2 : raw1 = raw2) (h3 : probs1 = probs2) :
    scRun prm solve raw1 probs1 iters (scInit seed1)
        = scRun prm solve raw2 probs2 iters (scInit seed2) ∧
    (scRun prm solve raw1 probs1 iters (scInit seed1)).map (fun st => st.batchHist)
        = (scRun prm solve raw2 probs2 iters (scInit seed2)).map
            (fun st => st.batchHist) := by
  subst h1
  subst h2
  subst h3
  exact ⟨rfl, rfl⟩

/-- C7 witness: the theorem applied to one concrete seed and input set. -/
theorem run_deterministic_witness :
    ((7 : Nat) = 7 ∧ rawEx = rawEx ∧ probsEx = probsEx) ∧
    (scRun prmEx solveEx rawEx probsEx 2 (scInit 7)
        = scRun prmEx solveEx rawEx probsEx 2 (scInit 7) ∧
    (scRun prmEx solveEx rawEx probsEx 2 (scInit 7)).map (fun st => st.batchHist)
        = (scRun prmEx solveEx rawEx probsEx 2 (scInit 7)).map
            (fun st => st.batchHist)) :=
  ⟨⟨rfl, rfl, rfl⟩,
   run_deterministic prmEx solveEx rawEx rawEx probsEx probsEx 7 7 2 rfl rfl rfl⟩

/-- C10: the raw bitstring matrix and probability vector are read, never
replaced, by every round: recovery on every round past round 0 is applied to
the original raw matrix, and the only state carried from one round to the next
is the occupancy estimate together with the random-source state — two loop
states agreeing on those two fields produce identical next rounds (the same new
occupancy, random state, round energies and round batches), regardless of what
their histories recorded. -/
theorem loop_state_frame (prm : SCParams)
    (solve : List Row → Except String SolveResult) (raw : List Row)
    (probs : List ℚ) (s1 s2 : LoopState)
    (h1 : s1.occ = s2.occ) (h2 : s1.rng = s2.rng) :
    (scStep prm solve raw probs s1).map roundView
        = (scStep prm solve raw probs s2).map roundView ∧
    ∀ o s, recoveryStage prm raw probs (some o) s
        = recoverConfigurations prm.norb raw probs o prm.nUp prm.nDn s := by
  refine ⟨?_, fun o s => rfl⟩
  have hr : scRound prm solve raw probs s1.occ s1.rng
      = scRound prm solve raw probs s2.occ s2.rng := by rw [h1, h2]
  cases hcase : scRound prm solve raw probs s2.occ s2.rng with
  | error m => simp [scStep, hr, hcase, Except.map]
  | ok rd => simp [scStep, hr, hcase, Except.map, roundView, List.getLast?_append_cons]

/-- C10 witness: the theorem applied to two concrete states with different
histories but the same carried occupancy estimate and random state. -/
theorem loop_state_frame_witness :
    (st1Ex.occ = st2Ex.occ ∧ st1Ex.rng = st2Ex.rng) ∧
    (scStep prmEx solveEx rawEx probsEx st1Ex).map roundView
        = (scStep prmEx solveEx rawEx probsEx st2Ex).map roundView :=
  ⟨⟨rfl, rfl⟩,
   (loop_state_frame prmEx solveEx rawEx probsEx st1Ex st2Ex rfl rfl).1⟩

end SQD
